import Mathlib

/-!
# Verification of the MSE image bulk runner core

A shallow embedding of `src/main.py`: the batch/job data model and status
aggregator, batch creation (job fan-out), the job executor's response
handling, the bounded-concurrency scheduler, and the two-phase bulk PNG
rename engine.  Filesystem and registry effects are modelled by explicit
state passing; randomness (uuid tokens) is modelled by oracle parameters.
-/

namespace MseSora

/-- The five job statuses of `JobRecord.status`. -/
inductive JobStatus
  | queued
  | submitting
  | processing
  | completed
  | failed
  deriving DecidableEq, Repr

/-- The dictionary produced by `BatchRecord.counts`. -/
structure StatusCounts where
  total : Nat
  queued : Nat
  submitting : Nat
  processing : Nat
  completed : Nat
  failed : Nat
  deriving DecidableEq, Repr

/-- Embedding of `BatchRecord.counts` (src/main.py:79-90): `total` is the
number of jobs and each bucket accumulates one unit per job of that status,
i.e. each bucket is the count of jobs with that status. -/
def countsOf (js : List JobStatus) : StatusCounts :=
  { total := js.length
    queued := js.count JobStatus.queued
    submitting := js.count JobStatus.submitting
    processing := js.count JobStatus.processing
    completed := js.count JobStatus.completed
    failed := js.count JobStatus.failed }

/-- Embedding of the branch chain of `BatchRecord.recalculate_status`
(src/main.py:92-109).  Python truthiness of an integer is `≠ 0`. -/
def statusFromCounts (c : StatusCounts) : String :=
  if c.total = 0 then "queued"
  else if c.failed ≠ 0 ∧ c.completed + c.failed = c.total then "completed_with_errors"
  else if c.completed = c.total then "completed"
  else if c.submitting ≠ 0 ∨ c.processing ≠ 0 then "running"
  else if c.queued = c.total then "queued"
  else "running"

/-- Modelled from the spec: the six-rule precedence of section 4.2, written
with the spec's own comparisons (`> 0`), to be compared with the code's
`statusFromCounts`. -/
def specAggregate (c : StatusCounts) : String :=
  if c.total = 0 then "queued"
  else if c.failed > 0 ∧ c.completed + c.failed = c.total then "completed_with_errors"
  else if c.completed = c.total then "completed"
  else if c.submitting > 0 ∨ c.processing > 0 then "running"
  else if c.queued = c.total then "queued"
  else "running"

/-! ## Batch mutation model (C6) -/

/-- The fields of `JobRecord` that the status invariant depends on. -/
structure Job where
  id : String
  status : JobStatus
  deriving DecidableEq, Repr

/-- A `BatchRecord` restricted to the fields the status invariant reads:
its id, its jobs and the mutable `status` field. -/
structure Batch where
  id : String
  jobs : List Job
  status : String
  deriving DecidableEq, Repr

def Batch.jobStatuses (b : Batch) : List JobStatus :=
  b.jobs.map Job.status

/-- Embedding of `BatchRecord.recalculate_status` (src/main.py:92-109) at the
batch level: assign the aggregator's value to the `status` field. -/
def recalculateStatus (b : Batch) : Batch :=
  { b with status := statusFromCounts (countsOf b.jobStatuses) }

/-- Embedding of the job lookup + field assignment of `_update_job`: the first
job whose id matches gets the new status, the rest are untouched. -/
def setJobStatus : List Job → String → JobStatus → List Job
  | [], _, _ => []
  | j :: js, jobId, st =>
    if j.id = jobId then { j with status := st } :: js
    else j :: setJobStatus js jobId st

/-- Embedding of `_update_job` (src/main.py:195-206): under the state lock,
find the job; if absent return unchanged, otherwise set its status and
recompute the batch status in the same critical section. -/
def updateJob (b : Batch) (jobId : String) (st : JobStatus) : Batch :=
  if b.jobs.any (fun j => j.id = jobId) then
    recalculateStatus { b with jobs := setJobStatus b.jobs jobId st }
  else b

/-- Embedding of the direct assignment in `_process_batch`
(src/main.py:247-248): `batch.status = "running"` without recalculation. -/
def processBatchStart (b : Batch) : Batch :=
  { b with status := "running" }

/-- Embedding of `BatchRecord.to_dict` (src/main.py:111-127) restricted to the
status-relevant outputs: it first calls `recalculate_status`, then serializes
`self.status` and `self.counts()`. -/
def toDictView (b : Batch) : String × StatusCounts :=
  let b' := recalculateStatus b
  (b'.status, countsOf b'.jobStatuses)

/-! ## Batch creation: job fan-out (C2) -/

/-- The job fields fixed at creation time that C2 is about. -/
structure JobSpec where
  sequence : Nat
  image : String
  prompt : String
  deriving DecidableEq, Repr

/-- Embedding of the inner `for prompt in prompts` loop of `create_batch`
(src/main.py:348-360): emit one job per prompt for the image, numbering them
from `seq`; also return the counter value after the loop. -/
def jobsForImage (img : String) : List String → Nat → List JobSpec × Nat
  | [], seq => ([], seq)
  | p :: ps, seq =>
    let rest := jobsForImage img ps (seq + 1)
    (JobSpec.mk seq img p :: rest.1, rest.2)

/-- Embedding of the outer `for image_filename, image_path in saved_images`
loop of `create_batch` (src/main.py:346-360), threading the `seq` counter. -/
def createJobsFrom : List String → List String → Nat → List JobSpec
  | [], _, _ => []
  | img :: imgs, prompts, seq =>
    let this := jobsForImage img prompts seq
    this.1 ++ createJobsFrom imgs prompts this.2

/-- The full job list that `create_batch` builds: the counter starts at 1. -/
def createJobsList (images prompts : List String) : List JobSpec :=
  createJobsFrom images prompts 1

/-! ## Job executor response handling (C7) -/

/-- One element of the service response's `data` list. -/
structure ImageItem where
  b64_json : Option String
  revised_prompt : Option String
  deriving DecidableEq, Repr

/-- The parts of the HTTP response that `_create_image_edit` inspects: the
status code, the raw body text (a character sequence, for slicing), and the
parsed `data` field of the JSON payload (absent or null becomes `none`). -/
structure EditResponse where
  status_code : Nat
  text : List Char
  data : Option (List ImageItem)
  deriving DecidableEq, Repr

/-- Embedding of Python's `response.text[:500]` slice: the first 500
characters of the body. -/
def truncate500 (t : List Char) : String :=
  String.mk (t.take 500)

/-- Embedding of the response handling of `_create_image_edit`
(src/main.py:168-192).  `decode` is the oracle for `base64.b64decode`
(`none` models a raised decoding exception).  Python truthiness makes
`if not b64_json` treat both a missing field and an empty string as absent,
and `payload.get("data") or []` turns an absent/null/empty `data` into `[]`. -/
def createImageEdit (decode : String → Option (List Nat)) (resp : EditResponse) :
    Except String (List Nat × Option String) :=
  if resp.status_code ≥ 400 then
    Except.error ("Image edit failed (" ++ toString resp.status_code ++ "): "
      ++ truncate500 resp.text)
  else
    let dataItems := resp.data.getD []
    if dataItems = [] then
      Except.error "Image edit response did not include image data."
    else
      let item := dataItems.headD (ImageItem.mk none none)
      if item.b64_json.getD "" = "" then
        Except.error "Image edit response did not include b64_json output."
      else
        match decode (item.b64_json.getD "") with
        | none => Except.error "Failed to decode returned image data."
        | some bytes => Except.ok (bytes, item.revised_prompt)

/-! ## Job executor output writing (C8) -/

/-- A filesystem side effect of the success branch of `_run_job`. -/
inductive FsOp
  | mkdir (path : String)
  | writeFile (path : String) (bytes : List Nat)
  deriving DecidableEq, Repr

def FsOp.isWrite : FsOp → Bool
  | .writeFile _ _ => true
  | .mkdir _ => false

/-- Embedding of `output_format` → file extension in `_run_job`
(src/main.py:218): `extension = "jpg" if batch.output_format == "jpeg" else
batch.output_format`. -/
def outputExtension (fmt : String) : String :=
  if fmt = "jpeg" then "jpg" else fmt

/-- Embedding of the output-writing statements of the success branch of
`_run_job` (src/main.py:216-220): lazily create `OUTPUTS_DIR / batch.id`
then write the image bytes to `output_dir / f"{job.id}.{extension}"`.
`OUTPUTS_DIR` is `data/outputs` (src/main.py:20-22). -/
def runJobOutputOps (batchId jobId fmt : String) (bytes : List Nat) : List FsOp :=
  [FsOp.mkdir ("data/outputs/" ++ batchId),
   FsOp.writeFile ("data/outputs/" ++ batchId ++ "/" ++ jobId ++ "." ++ outputExtension fmt)
     bytes]

/-! ## Scheduler concurrency bound (C9)

`_run_job` (src/main.py:208-237) wraps each job's whole execution in
`async with semaphore`, where the semaphore is created once per batch with
`asyncio.Semaphore(max(1, batch.concurrency))` (src/main.py:246).  We model
one batch's execution as a transition system over the per-job phases: a job
is `waiting` until it acquires a permit, then moves through `acquired`
(permit held, status still queued), `submitting`, `processing`, and finally
`done` (terminal status published and permit released).  The exception
handler's path from `submitting` straight to `done` is included.  The
`acquire` transition is enabled only while fewer than `limit` jobs hold a
permit — exactly the counting-semaphore semantics. -/

inductive JPhase
  | waiting
  | acquired
  | submitting
  | processing
  | done
  deriving DecidableEq, Repr

/-- A phase in which the job holds a semaphore permit. -/
def JPhase.holding : JPhase → Bool
  | .acquired => true
  | .submitting => true
  | .processing => true
  | _ => false

/-- A phase in which the job's published status is submitting or
processing — the statuses counted by the claim. -/
def JPhase.active : JPhase → Bool
  | .submitting => true
  | .processing => true
  | _ => false

/-- One interleaving step of the per-batch scheduler with permit-pool size
`limit`. -/
inductive SchedStep (limit : Nat) : List JPhase → List JPhase → Prop
  | acquire (s : List JPhase) (i : Nat) :
      s[i]? = some JPhase.waiting →
      s.countP JPhase.holding < limit →
      SchedStep limit s (s.set i JPhase.acquired)
  | toSubmitting (s : List JPhase) (i : Nat) :
      s[i]? = some JPhase.acquired →
      SchedStep limit s (s.set i JPhase.submitting)
  | toProcessing (s : List JPhase) (i : Nat) :
      s[i]? = some JPhase.submitting →
      SchedStep limit s (s.set i JPhase.processing)
  | finishFromSubmitting (s : List JPhase) (i : Nat) :
      s[i]? = some JPhase.submitting →
      SchedStep limit s (s.set i JPhase.done)
  | finishFromProcessing (s : List JPhase) (i : Nat) :
      s[i]? = some JPhase.processing →
      SchedStep limit s (s.set i JPhase.done)

/-- States reachable by the scheduler of a batch of `n` jobs, all initially
queued and permitless. -/
inductive SchedReachable (limit n : Nat) : List JPhase → Prop
  | init : SchedReachable limit n (List.replicate n JPhase.waiting)
  | step {s s' : List JPhase} :
      SchedReachable limit n s → SchedStep limit s s' → SchedReachable limit n s'

/-! ## Rename engine (C3, C4, C10)

Embedding of the `rename_pngs` endpoint (src/main.py:413-468).  The target
directory is modelled as a listing of entries (name, is-file flag, abstract
content); the filesystem renames of the two phases become explicit state
passing over the listing.  The random uuid-based temporary names of phase 1
are an oracle parameter `tmp`. -/

/-- One directory entry: its name, whether it is a regular file
(`p.is_file()`), and its contents (abstract). -/
structure Entry where
  name : String
  isFile : Bool
  content : Nat
  deriving DecidableEq, Repr

/-- Embedding of `pathlib.PurePath.suffix` of a file name: the part from the
last dot, except when that dot is the first or the last character. -/
def pathSuffix (name : String) : String :=
  let cs := name.toList
  match ((List.range cs.length).filter (fun i => cs.getD i ' ' = '.')).getLast? with
  | none => ""
  | some i => if 0 < i ∧ i + 1 < cs.length then String.mk (cs.drop i) else ""

/-- `str.lower()` on a name, character-wise (ASCII letters). -/
def lowerChars (s : String) : List Char :=
  s.toList.map Char.toLower

/-- The candidate test of src/main.py:427: a regular file whose
`suffix.lower()` equals `.png`. -/
def isPngFile (e : Entry) : Bool :=
  e.isFile && (lowerChars (pathSuffix e.name) == ".png".toList)

/-- Code-point lexicographic `≤` on character sequences, the order Python
uses to compare the `p.name.lower()` sort keys. -/
def charLe : List Char → List Char → Bool
  | [], _ => true
  | _ :: _, [] => false
  | a :: as, b :: bs =>
    if a.toNat < b.toNat then true
    else if b.toNat < a.toNat then false
    else charLe as bs

/-- The sort key comparison of src/main.py:428: case-insensitive name
order. -/
def entryKeyLe (a b : Entry) : Bool :=
  charLe (lowerChars a.name) (lowerChars b.name)

/-- Stable insertion: `e` goes after every already-placed entry whose key is
`≤` its own, as in Python's stable `sorted`. -/
def insertEntry (e : Entry) : List Entry → List Entry
  | [] => [e]
  | x :: xs => if entryKeyLe x e then x :: insertEntry e xs else e :: x :: xs

/-- Embedding of `sorted(candidates, key=lambda p: p.name.lower())`
(src/main.py:426-429) as a stable insertion sort. -/
def sortEntries (l : List Entry) : List Entry :=
  l.foldl (fun acc e => insertEntry e acc) []

/-- The sorted candidate list `png_files`. -/
def sortedPngs (dir : List Entry) : List Entry :=
  sortEntries (dir.filter isPngFile)

/-- Embedding of `f"{validated_base}_{idx}.png"` (src/main.py:433, 455). -/
def plannedName (base : String) (k : Nat) : String :=
  base ++ "_" ++ toString k ++ ".png"

/-- The planned final names for `n` candidates, k = 1..n. -/
def renPlannedNames (base : String) (n : Nat) : List String :=
  (List.range n).map (fun i => plannedName base (i + 1))

/-- Split a character sequence at every occurrence of `sep`. -/
def splitOnChar (sep : Char) : List Char → List (List Char)
  | [] => [[]]
  | c :: cs =>
    let rest := splitOnChar sep cs
    if c = sep then [] :: rest
    else (c :: rest.headD []) :: rest.tail

/-- `str.strip()`: drop leading and trailing whitespace. -/
def trimChars (cs : List Char) : List Char :=
  ((cs.dropWhile Char.isWhitespace).reverse.dropWhile Char.isWhitespace).reverse

/-- `re.sub(r"\s+", " ", s)`: collapse every whitespace run to a single
space. -/
def collapseWs : List Char → List Char
  | [] => []
  | [c] => if c.isWhitespace then [' '] else [c]
  | c :: c' :: cs =>
    if c.isWhitespace ∧ c'.isWhitespace then collapseWs (c' :: cs)
    else (if c.isWhitespace then ' ' else c) :: collapseWs (c' :: cs)

/-- The reserved filename characters of `_validate_base_name`
(src/main.py:267). -/
def reservedChars : List Char :=
  ['<', '>', ':', '"', '/', '\\', '|', '?', '*']

/-- Embedding of `_validate_base_name` (src/main.py:263-275): strip, reject
empty / reserved characters / trailing space or period, collapse internal
whitespace runs. -/
def validateBaseName (baseName : String) : Except (Nat × String) String :=
  let cleaned := trimChars baseName.toList
  if cleaned = [] then
    Except.error (400, "Base name is required.")
  else if cleaned.any (fun ch => reservedChars.contains ch) then
    Except.error (400, "Base name contains invalid filename characters (<>:\"/\\|?*).")
  else if cleaned.getLast? = some ' ' ∨ cleaned.getLast? = some '.' then
    Except.error (400, "Base name cannot end with a space or period.")
  else
    Except.ok (String.mk (collapseWs cleaned))

/-- One filesystem rename applied to a single entry. -/
def entryRename (old new : String) (e : Entry) : Entry :=
  if e.name = old then { e with name := new } else e

/-- Embedding of `Path.rename` on the directory listing: the entry named
`old` takes the name `new`, positions preserved.  On every path the engine
takes, `old` names exactly one entry and `new` names no other entry, so no
overwrite semantics arise. -/
def fsRename (d : List Entry) (old new : String) : List Entry :=
  d.map (entryRename old new)

/-- A loop of renames applied in order (phase 1 and phase 2 each perform one
`rename` per iteration). -/
def runRenames (d : List Entry) (rs : List (String × String)) : List Entry :=
  rs.foldl (fun d r => fsRename d r.1 r.2) d

/-- The cumulative effect of a rename sequence on one entry. -/
def applyRenames (rs : List (String × String)) (e : Entry) : Entry :=
  rs.foldl (fun e r => entryRename r.1 r.2 e) e

/-- The success payload of `rename_pngs` (src/main.py:463-468), without the
echoed folder path. -/
structure RenameResult where
  baseName : String
  renamedCount : Nat
  files : List (String × String)
  deriving DecidableEq, Repr

/-- Embedding of `rename_pngs` (src/main.py:413-468) with explicit state
passing: the result pairs the directory listing after the operation with
either an HTTP error (status, detail) or the success payload.  Every
raise-before-mutation path returns the input listing unchanged.  `tmp i` is
the uuid-based temporary name chosen in iteration `i` of phase 1
(src/main.py:447).  The folder existence checks of lines 421-424 are
outside the model: `dir` is the listing of an existing directory. -/
def renamePngs (tmp : Nat → String) (dir : List Entry) (baseName : String) :
    List Entry × Except (Nat × String) RenameResult :=
  match validateBaseName baseName with
  | Except.error e => (dir, Except.error e)
  | Except.ok vb =>
    let pngFiles := sortedPngs dir
    if pngFiles = [] then
      (dir, Except.error (400, "No .png files found in the selected folder."))
    else
      let plannedNames := renPlannedNames vb pngFiles.length
      let currentNames := pngFiles.map Entry.name
      match plannedNames.find?
          (fun n => (dir.any (fun e => e.name = n)) && !(currentNames.contains n)) with
      | some n =>
        (dir, Except.error (400, "Cannot rename because target file already exists: " ++ n))
      | none =>
        let tempNames := (List.range pngFiles.length).map tmp
        let d1 := runRenames dir (currentNames.zip tempNames)
        let d2 := runRenames d1 (tempNames.zip plannedNames)
        (d2, Except.ok (RenameResult.mk vb pngFiles.length (currentNames.zip plannedNames)))

/-- The final name assignment of a successful rename: candidate names (in
case-insensitive sorted order) paired with `<base>_<k>.png` for k = 1..N. -/
def renFinalMap (dir : List Entry) (vb : String) : List (String × String) :=
  ((sortedPngs dir).map Entry.name).zip (renPlannedNames vb (sortedPngs dir).length)

/-- The effect of a successful rename on a single entry: a candidate file
takes its planned name, every other entry is untouched. -/
def renApply (dir : List Entry) (vb : String) (e : Entry) : Entry :=
  match (renFinalMap dir vb).lookup e.name with
  | some nn => { e with name := nn }
  | none => e

/-! ## Batch submission validation (C5)

Embedding of the `create_batch` endpoint (src/main.py:306-378) with explicit
state passing: all state mutations (directory creation, file writes, batch
registration, job creation) are collected in `SubmitEffects`, and every
`raise` returns the effects accumulated so far.  The uuid batch id is an
oracle parameter. -/

/-- One uploaded image: `upload.filename` (empty string models a falsy
filename) and the bytes read from it. -/
structure UploadImage where
  filename : String
  content : List Nat
  deriving DecidableEq, Repr

/-- The submission form fields besides prompts and images. -/
structure SubmitConfig where
  modelName : String
  size : String
  quality : String
  output_format : String
  concurrency : Int
  deriving DecidableEq, Repr

/-- The state mutations `create_batch` can perform before returning. -/
structure SubmitEffects where
  dirsCreated : List String
  filesWritten : List (String × List Nat)
  batchesRegistered : List String
  jobsCreated : Nat
  deriving DecidableEq, Repr

/-- No state mutation at all. -/
def noEffects : SubmitEffects :=
  SubmitEffects.mk [] [] [] 0

/-- Embedding of `_sanitize_prompts` (src/main.py:259-260): split into
lines, strip each, keep the non-empty ones. -/
def sanitizePrompts (promptsText : String) : List String :=
  (((splitOnChar '\n' promptsText.toList).map trimChars).filter
    (fun l => l ≠ [])).map String.mk

/-- Embedding of `Path(filename).name`: the final path component. -/
def pathBaseName (s : String) : String :=
  String.mk ((splitOnChar '/' s.toList).getLastD [])

/-- Embedding of the `f"{idx:03d}"` zero-padded index. -/
def pad3 (n : Nat) : String :=
  if n < 10 then "00" ++ toString n
  else if n < 100 then "0" ++ toString n
  else toString n

/-- Embedding of the upload loop of `create_batch` (src/main.py:334-344):
for each image (1-based index), reject a missing filename or empty content,
otherwise write `upload_dir/{idx:03d}_{safe_name}` and record the
(safe name, path) pair.  Effects accumulate; a raised error keeps the
effects performed before it. -/
def saveImagesLoop (uploadDir : String) :
    List UploadImage → Nat → SubmitEffects →
    SubmitEffects × Except (Nat × String) (List (String × String))
  | [], _, eff => (eff, Except.ok [])
  | img :: rest, idx, eff =>
    if img.filename = "" then
      (eff, Except.error (400, "Image " ++ toString idx ++ " is missing a filename."))
    else if img.content = [] then
      (eff, Except.error (400, "Image " ++ toString idx ++ " is empty."))
    else
      let safeName := pathBaseName img.filename
      let filePath := uploadDir ++ "/" ++ pad3 idx ++ "_" ++ safeName
      let eff' := SubmitEffects.mk eff.dirsCreated
        (eff.filesWritten ++ [(filePath, img.content)])
        eff.batchesRegistered eff.jobsCreated
      match saveImagesLoop uploadDir rest (idx + 1) eff' with
      | (effFin, Except.ok saved) => (effFin, Except.ok ((safeName, filePath) :: saved))
      | (effFin, Except.error e) => (effFin, Except.error e)

/-- Embedding of `create_batch` (src/main.py:306-378) up to batch
registration: the six validation checks in source order, then the upload
directory creation (`UPLOADS_DIR` is `data/uploads`, src/main.py:21), the
image upload loop, job fan-out over the cross-product, and registration.
Returns the accumulated effects and either an HTTP error or
(batch id, job count). -/
def createBatch (batchId apiKey promptsText : String)
    (images : List UploadImage) (cfg : SubmitConfig) :
    SubmitEffects × Except (Nat × String) (String × Nat) :=
  let prompts := sanitizePrompts promptsText
  if prompts = [] then
    (noEffects, Except.error (400, "Provide at least one prompt (one per line)."))
  else if images = [] then
    (noEffects, Except.error (400, "Upload at least one image."))
  else if cfg.concurrency < 1 ∨ cfg.concurrency > 10 then
    (noEffects, Except.error (400, "concurrency must be between 1 and 10."))
  else if ¬ (cfg.quality = "auto" ∨ cfg.quality = "low" ∨ cfg.quality = "medium"
      ∨ cfg.quality = "high") then
    (noEffects, Except.error (400, "quality must be auto, low, medium, or high."))
  else if ¬ (cfg.output_format = "png" ∨ cfg.output_format = "webp"
      ∨ cfg.output_format = "jpeg") then
    (noEffects, Except.error (400, "output_format must be png, webp, or jpeg."))
  else if apiKey = "" then
    (noEffects, Except.error (500, "OPENAI_API_KEY is not configured on the server."))
  else
    let uploadDir := "data/uploads/" ++ batchId
    let eff0 := SubmitEffects.mk [uploadDir] [] [] 0
    match saveImagesLoop uploadDir images 1 eff0 with
    | (eff, Except.error e) => (eff, Except.error e)
    | (eff, Except.ok saved) =>
      let jobs := createJobsList (saved.map Prod.fst) prompts
      (SubmitEffects.mk eff.dirsCreated eff.filesWritten [batchId] jobs.length,
        Except.ok (batchId, jobs.length))

/-! ## Theorems -/

theorem statusFromCounts_eq_specAggregate (c : StatusCounts) :
    statusFromCounts c = specAggregate c := by
  unfold statusFromCounts specAggregate
  have h1 : (c.failed ≠ 0 ∧ c.completed + c.failed = c.total) ↔
      (c.failed > 0 ∧ c.completed + c.failed = c.total) := by
    constructor <;> exact fun ⟨a, b⟩ => ⟨by omega, b⟩
  have h2 : (c.submitting ≠ 0 ∨ c.processing ≠ 0) ↔
      (c.submitting > 0 ∨ c.processing > 0) := by
    constructor <;> exact fun h => h.imp (by omega) (by omega)
  split
  · rfl
  · rw [if_congr h1 rfl rfl, if_congr (iff_of_eq (congrArg _ rfl)) rfl
      (if_congr (iff_of_eq (congrArg _ rfl)) rfl (if_congr h2 rfl rfl))]

lemma count_lt_length_of_mem_ne {js : List JobStatus} {a b : JobStatus}
    (hb : b ∈ js) (hne : b ≠ a) : js.count a < js.length := by
  induction js with
  | nil => cases hb
  | cons x xs ih =>
    simp only [List.count_cons, List.length_cons]
    rcases List.mem_cons.mp hb with h | hb'
    · subst h
      have h1 := List.count_le_length (l := xs) (a := a)
      have hxa : (b == a) = false := by simpa using hne
      simp [hxa]
      omega
    · have h2 := ih hb'
      split <;> omega

/-- C1: the batch status aggregator is a pure function of the job-status
counts evaluated with exactly the six-rule precedence of the spec (first
match wins), and in particular any mix of some completed and some queued
jobs with none submitting/processing/failed yields `running` via the
fallback rule. -/
theorem aggregator_six_rule_precedence :
    (∀ c : StatusCounts, statusFromCounts c = specAggregate c) ∧
    (∀ js : List JobStatus,
      JobStatus.completed ∈ js →
      JobStatus.queued ∈ js →
      (∀ j ∈ js, j = JobStatus.completed ∨ j = JobStatus.queued) →
      statusFromCounts (countsOf js) = "running") := by
  refine ⟨statusFromCounts_eq_specAggregate, ?_⟩
  intro js hc hq hall
  have hlen : js.length ≠ 0 := by
    intro h
    rw [List.length_eq_zero] at h
    subst h
    cases hc
  have hfail : js.count JobStatus.failed = 0 := by
    rw [List.count_eq_zero]
    intro hmem
    rcases hall _ hmem with h | h <;> exact JobStatus.noConfusion h
  have hsub : js.count JobStatus.submitting = 0 := by
    rw [List.count_eq_zero]
    intro hmem
    rcases hall _ hmem with h | h <;> exact JobStatus.noConfusion h
  have hproc : js.count JobStatus.processing = 0 := by
    rw [List.count_eq_zero]
    intro hmem
    rcases hall _ hmem with h | h <;> exact JobStatus.noConfusion h
  have hclt : js.count JobStatus.completed < js.length :=
    count_lt_length_of_mem_ne hq (by intro h; exact JobStatus.noConfusion h)
  have hqlt : js.count JobStatus.queued < js.length :=
    count_lt_length_of_mem_ne hc (by intro h; exact JobStatus.noConfusion h)
  unfold statusFromCounts countsOf
  simp only
  rw [if_neg hlen, if_neg (by omega), if_neg (by omega), if_neg (by omega),
    if_neg (by omega)]

/-- Witness for C1 at the spec's own example: two completed jobs and one
queued job, none active, give `running`. -/
theorem aggregator_six_rule_precedence_witness :
    statusFromCounts
      (countsOf [JobStatus.completed, JobStatus.completed, JobStatus.queued]) = "running" :=
  aggregator_six_rule_precedence.2
    [JobStatus.completed, JobStatus.completed, JobStatus.queued]
    (by decide) (by decide) (by decide)

/-- C6 counterexample: `_process_batch` sets the status field directly to
`running` while every job is still queued, so at that instant the stored
status differs from the aggregator of the job-status counts
(which gives `queued` for a fully-queued non-empty batch). -/
theorem batch_status_direct_assignment_ce :
    (processBatchStart (Batch.mk "b1" [Job.mk "j1" JobStatus.queued] "queued")).status
        = "running" ∧
    statusFromCounts (countsOf
        (processBatchStart (Batch.mk "b1" [Job.mk "j1" JobStatus.queued] "queued")).jobStatuses)
      = "queued" ∧
    ("running" : String) ≠ "queued" := by
  refine ⟨rfl, ?_, by decide⟩
  decide

/-- C6 (amended): every observation through `to_dict` reports a status equal
to the aggregator applied to the same view's counts, and each mutation path
that recalculates (`_update_job` on a present job, and the final
recalculation of `_process_batch`) re-establishes the invariant; the single
deviating path is the scheduler's direct `status = "running"` assignment at
batch start, exhibited in the counterexample. -/
theorem batch_status_invariant_amended :
    (∀ b : Batch, (toDictView b).1 = statusFromCounts (toDictView b).2) ∧
    (∀ (b : Batch) (jobId : String) (st : JobStatus),
      (∃ j ∈ b.jobs, j.id = jobId) →
      (updateJob b jobId st).status
        = statusFromCounts (countsOf (updateJob b jobId st).jobStatuses)) ∧
    (∀ b : Batch,
      (recalculateStatus b).status
        = statusFromCounts (countsOf (recalculateStatus b).jobStatuses)) := by
  refine ⟨fun b => rfl, ?_, fun b => rfl⟩
  intro b jobId st hex
  have hany : b.jobs.any (fun j => j.id = jobId) = true := by
    rw [List.any_eq_true]
    rcases hex with ⟨j, hj, hid⟩
    exact ⟨j, hj, by simpa using hid⟩
  unfold updateJob
  rw [if_pos hany]
  rfl

/-- Witness for C6's amended theorem: a concrete `_update_job` call on a
present job id leaves the batch status equal to the aggregator value. -/
theorem batch_status_invariant_amended_witness :
    (updateJob (Batch.mk "b1" [Job.mk "j1" JobStatus.queued] "queued") "j1"
        JobStatus.processing).status
      = statusFromCounts (countsOf
          (updateJob (Batch.mk "b1" [Job.mk "j1" JobStatus.queued] "queued") "j1"
            JobStatus.processing).jobStatuses) :=
  batch_status_invariant_amended.2.1
    (Batch.mk "b1" [Job.mk "j1" JobStatus.queued] "queued") "j1" JobStatus.processing
    ⟨Job.mk "j1" JobStatus.queued, by decide, by decide⟩

lemma jobsForImage_snd (img : String) (ps : List String) (seq : Nat) :
    (jobsForImage img ps seq).2 = seq + ps.length := by
  induction ps generalizing seq with
  | nil => rfl
  | cons p ps ih => simp [jobsForImage, ih]; omega

lemma jobsForImage_map_seq (img : String) (ps : List String) (seq : Nat) :
    (jobsForImage img ps seq).1.map JobSpec.sequence = List.range' seq ps.length := by
  induction ps generalizing seq with
  | nil => rfl
  | cons p ps ih => simp [jobsForImage, ih, List.range'_succ]

lemma jobsForImage_map_pair (img : String) (ps : List String) (seq : Nat) :
    (jobsForImage img ps seq).1.map (fun j => (j.image, j.prompt))
      = ps.map (fun p => (img, p)) := by
  induction ps generalizing seq with
  | nil => rfl
  | cons p ps ih => simp [jobsForImage, ih]

lemma createJobsFrom_map_seq (images prompts : List String) (seq : Nat) :
    (createJobsFrom images prompts seq).map JobSpec.sequence
      = List.range' seq (images.length * prompts.length) := by
  induction images generalizing seq with
  | nil => simp [createJobsFrom]
  | cons img imgs ih =>
    simp only [createJobsFrom, List.map_append, jobsForImage_map_seq, ih,
      jobsForImage_snd]
    have := List.range'_append seq prompts.length (imgs.length * prompts.length) 1
    simp only [one_mul] at this
    rw [this]
    congr 1
    rw [List.length_cons]
    ring

lemma createJobsFrom_map_pair (images prompts : List String) (seq : Nat) :
    (createJobsFrom images prompts seq).map (fun j => (j.image, j.prompt))
      = images.flatMap (fun img => prompts.map (fun p => (img, p))) := by
  induction images generalizing seq with
  | nil => rfl
  | cons img imgs ih =>
    simp [createJobsFrom, jobsForImage_map_pair, ih]

/-- C2: for a batch created from non-empty image and prompt lists, the job
count is (images) × (prompts), the sequences are exactly 1..N in order, they
are unique within the batch, and the (image, prompt) pairs enumerate the
cross-product in image-major, prompt-minor order. -/
theorem create_batch_job_fanout (images prompts : List String)
    (himg : images ≠ []) (hpr : prompts ≠ []) :
    (createJobsList images prompts).length = images.length * prompts.length ∧
    (createJobsList images prompts).map JobSpec.sequence
      = List.range' 1 (images.length * prompts.length) ∧
    ((createJobsList images prompts).map JobSpec.sequence).Nodup ∧
    (createJobsList images prompts).map (fun j => (j.image, j.prompt))
      = images.flatMap (fun img => prompts.map (fun p => (img, p))) := by
  have hseq := createJobsFrom_map_seq images prompts 1
  refine ⟨?_, hseq, ?_, createJobsFrom_map_pair images prompts 1⟩
  · have := congrArg List.length hseq
    simpa [createJobsList] using this
  · rw [createJobsList, hseq]
    exact List.nodup_range' 1 (images.length * prompts.length)

/-- Witness for C2 at the spec's example: images `[a.jpg, b.jpg]`, prompts
`[x, y]` give 4 jobs, sequences 1..4, pairs (a,x), (a,y), (b,x), (b,y). -/
theorem create_batch_job_fanout_witness :
    (createJobsList ["a.jpg", "b.jpg"] ["x", "y"]).length = 4 ∧
    (createJobsList ["a.jpg", "b.jpg"] ["x", "y"]).map JobSpec.sequence
      = List.range' 1 4 ∧
    (createJobsList ["a.jpg", "b.jpg"] ["x", "y"]).map (fun j => (j.image, j.prompt))
      = [("a.jpg", "x"), ("a.jpg", "y"), ("b.jpg", "x"), ("b.jpg", "y")] := by
  have h := create_batch_job_fanout ["a.jpg", "b.jpg"] ["x", "y"]
    (by decide) (by decide)
  exact ⟨h.1, h.2.1, by rw [h.2.2.2]; decide⟩

/-- C7: the executor's call fails if and only if the response has a
non-success status, the result list is empty or absent, the first result's
`b64_json` is missing (or empty, which Python truthiness treats as missing),
or the payload cannot be decoded; otherwise it returns the decoded bytes and
the optional revised prompt; and on a non-success status the error embeds
the body truncated to at most 500 characters. -/
theorem executor_error_iff (decode : String → Option (List Nat))
    (resp : EditResponse) :
    ((∃ e, createImageEdit decode resp = Except.error e) ↔
      (resp.status_code ≥ 400 ∨ resp.data.getD [] = [] ∨
        (∃ item rest, resp.data.getD [] = item :: rest ∧
          (item.b64_json.getD "" = "" ∨ decode (item.b64_json.getD "") = none)))) ∧
    (∀ item rest bytes, resp.data.getD [] = item :: rest →
      resp.status_code < 400 →
      item.b64_json.getD "" ≠ "" →
      decode (item.b64_json.getD "") = some bytes →
      createImageEdit decode resp = Except.ok (bytes, item.revised_prompt)) ∧
    (resp.status_code ≥ 400 →
      createImageEdit decode resp =
        Except.error ("Image edit failed (" ++ toString resp.status_code ++ "): "
          ++ truncate500 resp.text) ∧
      (truncate500 resp.text).length ≤ 500) := by
  refine ⟨?_, ?_, ?_⟩
  · constructor
    · intro ⟨e, he⟩
      by_cases h4 : resp.status_code ≥ 400
      · exact Or.inl h4
      refine Or.inr ?_
      cases hd : resp.data.getD [] with
      | nil => exact Or.inl rfl
      | cons item rest =>
        refine Or.inr ⟨item, rest, rfl, ?_⟩
        by_cases hb : item.b64_json.getD "" = ""
        · exact Or.inl hb
        cases hdec : decode (item.b64_json.getD "") with
        | none => exact Or.inr rfl
        | some bytes =>
          exfalso
          simp [createImageEdit, h4, hd, hb, hdec] at he
    · intro h
      rcases h with h4 | hnil | ⟨item, rest, hd, hitem⟩
      · exact ⟨_, show _ = Except.error ("Image edit failed ("
          ++ toString resp.status_code ++ "): " ++ truncate500 resp.text) by
          simp [createImageEdit, h4]⟩
      · by_cases h4 : resp.status_code ≥ 400
        · exact ⟨_, show _ = Except.error ("Image edit failed ("
            ++ toString resp.status_code ++ "): " ++ truncate500 resp.text) by
            simp [createImageEdit, h4]⟩
        · exact ⟨_, show _ = Except.error
            "Image edit response did not include image data." by
            simp [createImageEdit, h4, hnil]⟩
      · by_cases h4 : resp.status_code ≥ 400
        · exact ⟨_, show _ = Except.error ("Image edit failed ("
            ++ toString resp.status_code ++ "): " ++ truncate500 resp.text) by
            simp [createImageEdit, h4]⟩
        rcases hitem with hb | hdec
        · exact ⟨_, show _ = Except.error
            "Image edit response did not include b64_json output." by
            simp [createImageEdit, h4, hd, hb]⟩
        · by_cases hb : item.b64_json.getD "" = ""
          · exact ⟨_, show _ = Except.error
              "Image edit response did not include b64_json output." by
              simp [createImageEdit, h4, hd, hb]⟩
          · exact ⟨_, show _ = Except.error
              "Failed to decode returned image data." by
              simp [createImageEdit, h4, hd, hb, hdec]⟩
  · intro item rest bytes hd h4 hb hdec
    have h4' : ¬ resp.status_code ≥ 400 := by omega
    simp [createImageEdit, hd, hb, hdec, h4']
  · intro h4
    refine ⟨by simp [createImageEdit, h4], ?_⟩
    have h : (truncate500 resp.text).length = (resp.text.take 500).length := rfl
    rw [h, List.length_take]
    omega

/-- Witness for C7: a concrete 500-status response fails with the formatted,
truncated error message. -/
theorem executor_error_iff_witness :
    createImageEdit (fun _ => none) (EditResponse.mk 500 ['o', 'k'] none) =
      Except.error ("Image edit failed (" ++ toString (500 : Nat) ++ "): "
        ++ truncate500 ['o', 'k']) ∧
    (truncate500 (['o', 'k'] : List Char)).length ≤ 500 :=
  (executor_error_iff (fun _ => none) (EditResponse.mk 500 ['o', 'k'] none)).2.2
    (by decide)

/-- C8: a successful job performs exactly one file write, into the per-batch
output directory (created beforehand in the same sequence), named by job id
with the format-derived extension; `jpeg` maps to `jpg` while `png` and
`webp` map to themselves. -/
theorem run_job_single_output (batchId jobId fmt : String) (bytes : List Nat) :
    (runJobOutputOps batchId jobId fmt bytes).filter FsOp.isWrite
      = [FsOp.writeFile
          ("data/outputs/" ++ batchId ++ "/" ++ jobId ++ "." ++ outputExtension fmt)
          bytes] ∧
    runJobOutputOps batchId jobId fmt bytes
      = [FsOp.mkdir ("data/outputs/" ++ batchId),
         FsOp.writeFile
           ("data/outputs/" ++ batchId ++ "/" ++ jobId ++ "." ++ outputExtension fmt)
           bytes] ∧
    outputExtension "jpeg" = "jpg" ∧
    outputExtension "png" = "png" ∧
    outputExtension "webp" = "webp" :=
  ⟨rfl, rfl, by decide, by decide, by decide⟩

lemma countP_set_of_getElem {α : Type} (p : α → Bool) (l : List α) (i : Nat)
    (u v : α) (hu : l[i]? = some u) :
    (l.set i v).countP p
      = l.countP p - (if p u then 1 else 0) + (if p v then 1 else 0) := by
  rcases List.getElem?_eq_some_iff.mp hu with ⟨hlen, hget⟩
  rw [List.countP_set p l i v hlen, hget]

lemma mem_of_getElem_eq_some {α : Type} {l : List α} {i : Nat} {u : α}
    (hu : l[i]? = some u) : u ∈ l := by
  rcases List.getElem?_eq_some_iff.mp hu with ⟨hlen, hget⟩
  exact hget ▸ List.getElem_mem hlen

lemma countP_pos_of_getElem {α : Type} {p : α → Bool} {l : List α} {i : Nat}
    {u : α} (hu : l[i]? = some u) (hp : p u = true) : 0 < l.countP p :=
  List.countP_pos_iff.mpr ⟨u, mem_of_getElem_eq_some hu, hp⟩

lemma sched_holding_bound {limit n : Nat} {s : List JPhase}
    (h : SchedReachable limit n s) : s.countP JPhase.holding ≤ limit := by
  induction h with
  | init =>
    have h0 : (List.replicate n JPhase.waiting).countP JPhase.holding = 0 := by
      rw [List.countP_replicate]
      simp [JPhase.holding]
    omega
  | step _ hstep ih =>
    cases hstep with
    | acquire i hu hlt =>
      rw [countP_set_of_getElem JPhase.holding _ i _ _ hu]
      rw [show (if JPhase.holding JPhase.waiting then 1 else 0) = 0 from rfl,
        show (if JPhase.holding JPhase.acquired then 1 else 0) = 1 from rfl]
      omega
    | toSubmitting i hu =>
      have hpos := countP_pos_of_getElem hu (show JPhase.holding JPhase.acquired = true from rfl)
      rw [countP_set_of_getElem JPhase.holding _ i _ _ hu]
      rw [show (if JPhase.holding JPhase.acquired then 1 else 0) = 1 from rfl,
        show (if JPhase.holding JPhase.submitting then 1 else 0) = 1 from rfl]
      omega
    | toProcessing i hu =>
      have hpos := countP_pos_of_getElem hu (show JPhase.holding JPhase.submitting = true from rfl)
      rw [countP_set_of_getElem JPhase.holding _ i _ _ hu]
      rw [show (if JPhase.holding JPhase.submitting then 1 else 0) = 1 from rfl,
        show (if JPhase.holding JPhase.processing then 1 else 0) = 1 from rfl]
      omega
    | finishFromSubmitting i hu =>
      rw [countP_set_of_getElem JPhase.holding _ i _ _ hu]
      rw [show (if JPhase.holding JPhase.submitting then 1 else 0) = 1 from rfl,
        show (if JPhase.holding JPhase.done then 1 else 0) = 0 from rfl]
      omega
    | finishFromProcessing i hu =>
      rw [countP_set_of_getElem JPhase.holding _ i _ _ hu]
      rw [show (if JPhase.holding JPhase.processing then 1 else 0) = 1 from rfl,
        show (if JPhase.holding JPhase.done then 1 else 0) = 0 from rfl]
      omega

/-- C9: in any reachable interleaving of a batch run with configured
concurrency `c ≥ 1` (so the pool size `max 1 c` equals `c`), the number of
jobs simultaneously in status submitting or processing never exceeds `c`:
each such job holds one of the `c` permits from acquisition until it
reaches a terminal state. -/
theorem scheduler_concurrency_bound (c n : Nat) (s : List JPhase)
    (hc : 1 ≤ c) (h : SchedReachable (max 1 c) n s) :
    s.countP JPhase.active ≤ c := by
  have h1 : s.countP JPhase.active ≤ s.countP JPhase.holding := by
    apply List.countP_mono_left
    intro x _ hx
    cases x <;> simp_all [JPhase.active, JPhase.holding]
  have h2 := sched_holding_bound h
  have h3 : max 1 c = c := by omega
  omega

/-- Witness for C9: the initial state of a two-job batch at concurrency 1
satisfies the bound. -/
theorem scheduler_concurrency_bound_witness :
    (List.replicate 2 JPhase.waiting).countP JPhase.active ≤ 1 :=
  scheduler_concurrency_bound 1 2 (List.replicate 2 JPhase.waiting)
    (by decide) (SchedReachable.init)

lemma charLe_total : ∀ (a b : List Char), charLe a b = true ∨ charLe b a = true
  | [], _ => Or.inl rfl
  | _ :: _, [] => Or.inr rfl
  | a :: as, b :: bs => by
    simp only [charLe]
    by_cases h1 : a.toNat < b.toNat
    · left; rw [if_pos h1]
    · by_cases h2 : b.toNat < a.toNat
      · right; rw [if_pos h2]
      · simp only [if_neg h1, if_neg h2]
        exact charLe_total as bs

lemma charLe_trans : ∀ (a b c : List Char),
    charLe a b = true → charLe b c = true → charLe a c = true
  | [], _, _ => fun _ _ => rfl
  | _ :: _, [], _ => fun h _ => by simp [charLe] at h
  | _ :: _, _ :: _, [] => fun _ h => by simp [charLe] at h
  | a :: as, b :: bs, c :: cs => fun h1 h2 => by
    simp only [charLe] at h1 h2 ⊢
    by_cases hab : a.toNat < b.toNat
    · by_cases hbc : b.toNat < c.toNat
      · rw [if_pos (show a.toNat < c.toNat by omega)]
      · by_cases hcb : c.toNat < b.toNat
        · rw [if_neg hbc, if_pos hcb] at h2; exact absurd h2 (by simp)
        · rw [if_pos (show a.toNat < c.toNat by omega)]
    · by_cases hba : b.toNat < a.toNat
      · rw [if_pos hba] at h1
        rw [if_neg hab] at h1
        exact absurd h1 (by simp)
      · rw [if_neg hab, if_neg hba] at h1
        by_cases hbc : b.toNat < c.toNat
        · rw [if_pos (show a.toNat < c.toNat by omega)]
        · by_cases hcb : c.toNat < b.toNat
          · rw [if_neg hbc, if_pos hcb] at h2; exact absurd h2 (by simp)
          · rw [if_neg hbc, if_neg hcb] at h2
            rw [if_neg (show ¬ a.toNat < c.toNat by omega),
              if_neg (show ¬ c.toNat < a.toNat by omega)]
            exact charLe_trans as bs cs h1 h2

lemma entryKeyLe_total (a b : Entry) :
    entryKeyLe a b = true ∨ entryKeyLe b a = true :=
  charLe_total _ _

lemma entryKeyLe_trans {a b c : Entry} (h1 : entryKeyLe a b = true)
    (h2 : entryKeyLe b c = true) : entryKeyLe a c = true :=
  charLe_trans _ _ _ h1 h2

lemma insertEntry_perm (e : Entry) (l : List Entry) :
    (insertEntry e l).Perm (e :: l) := by
  induction l with
  | nil => exact List.Perm.refl _
  | cons x xs ih =>
    rw [insertEntry]
    split
    · exact (ih.cons x).trans (List.Perm.swap e x xs)
    · exact List.Perm.refl _

lemma sortEntries_aux_perm (l : List Entry) : ∀ (acc : List Entry),
    (l.foldl (fun acc e => insertEntry e acc) acc).Perm (acc ++ l) := by
  induction l with
  | nil => intro acc; simp
  | cons x xs ih =>
    intro acc
    simp only [List.foldl_cons]
    exact ((ih _).trans ((insertEntry_perm x acc).append_right xs)).trans
      List.perm_middle.symm

lemma sortEntries_perm (l : List Entry) : (sortEntries l).Perm l := by
  simpa using sortEntries_aux_perm l []

lemma pairwise_insertEntry {e : Entry} {l : List Entry}
    (hl : l.Pairwise (fun a b => entryKeyLe a b = true)) :
    (insertEntry e l).Pairwise (fun a b => entryKeyLe a b = true) := by
  induction l with
  | nil => simp [insertEntry]
  | cons x xs ih =>
    rw [List.pairwise_cons] at hl
    rw [insertEntry]
    split
    · rename_i hxe
      rw [List.pairwise_cons]
      refine ⟨?_, ih hl.2⟩
      intro y hy
      rcases List.mem_cons.mp ((insertEntry_perm e xs).mem_iff.mp hy) with rfl | h
      · exact hxe
      · exact hl.1 y h
    · rename_i hxe
      have hex : entryKeyLe e x = true :=
        (entryKeyLe_total e x).resolve_right hxe
      rw [List.pairwise_cons]
      refine ⟨?_, List.pairwise_cons.mpr hl⟩
      intro y hy
      rcases List.mem_cons.mp hy with rfl | h
      · exact hex
      · exact entryKeyLe_trans hex (hl.1 y h)

lemma sortEntries_pairwise (l : List Entry) :
    (sortEntries l).Pairwise (fun a b => entryKeyLe a b = true) := by
  rw [sortEntries]
  have haux : ∀ (m acc : List Entry),
      acc.Pairwise (fun a b => entryKeyLe a b = true) →
      (m.foldl (fun acc e => insertEntry e acc) acc).Pairwise
        (fun a b => entryKeyLe a b = true) := by
    intro m
    induction m with
    | nil => intro acc hacc; simpa using hacc
    | cons x xs ih =>
      intro acc hacc
      exact ih _ (pairwise_insertEntry hacc)
  exact haux l [] List.Pairwise.nil

lemma applyRenames_cons (r : String × String) (rs : List (String × String))
    (e : Entry) :
    applyRenames (r :: rs) e = applyRenames rs (entryRename r.1 r.2 e) := rfl

lemma applyRenames_append (a b : List (String × String)) (e : Entry) :
    applyRenames (a ++ b) e = applyRenames b (applyRenames a e) :=
  List.foldl_append _ _ a b

lemma runRenames_eq_map (rs : List (String × String)) (d : List Entry) :
    runRenames d rs = d.map (applyRenames rs) := by
  induction rs generalizing d with
  | nil =>
    show d = d.map (applyRenames [])
    rw [show applyRenames ([] : List (String × String)) = id from rfl, List.map_id]
  | cons r rs ih =>
    show runRenames (fsRename d r.1 r.2) rs = _
    rw [ih, fsRename, List.map_map]
    rfl

lemma runRenames_append (d : List Entry) (a b : List (String × String)) :
    runRenames (runRenames d a) b = d.map (applyRenames (a ++ b)) := by
  rw [show runRenames (runRenames d a) b = runRenames d (a ++ b) from
    (List.foldl_append _ _ a b).symm, runRenames_eq_map]

lemma applyRenames_not_mem : ∀ {rs : List (String × String)} {e : Entry},
    e.name ∉ rs.map Prod.fst → applyRenames rs e = e
  | [], _, _ => rfl
  | r :: rs, e, h => by
    have h1 : e.name ≠ r.1 := by
      intro hx; exact h (by simp [hx])
    have h2 : e.name ∉ rs.map Prod.fst := by
      intro hx; exact h (by simp [hx])
    rw [applyRenames_cons, entryRename, if_neg h1]
    exact applyRenames_not_mem h2

lemma applyRenames_zip : ∀ (olds news : List String) (e : Entry) (i : Nat),
    olds.Nodup → news.length = olds.length →
    (∀ n ∈ news, n ∉ olds) →
    i < olds.length → e.name = olds.getD i "" →
    applyRenames (olds.zip news) e = { e with name := news.getD i "" }
  | [], _, _, i, _, _, _, hi, _ => absurd hi (by simp)
  | _ :: _, [], _, _, _, hlen, _, _, _ => by simp at hlen
  | o :: os, n :: ns, e, 0, hnd, hlen, hfresh, hi, hname => by
    simp only [List.getD_cons_zero] at hname ⊢
    rw [List.zip_cons_cons, applyRenames_cons]
    show applyRenames (os.zip ns) (entryRename o n e) = _
    rw [entryRename, if_pos hname]
    apply applyRenames_not_mem
    have hlen' : os.length ≤ ns.length := by
      simp only [List.length_cons] at hlen; omega
    rw [show ((os.zip ns).map Prod.fst) = os from List.map_fst_zip os ns hlen']
    have hn := hfresh n (by simp)
    simp only [List.mem_cons, not_or] at hn
    exact hn.2
  | o :: os, n :: ns, e, i + 1, hnd, hlen, hfresh, hi, hname => by
    simp only [List.getD_cons_succ] at hname ⊢
    rw [List.zip_cons_cons, applyRenames_cons]
    show applyRenames (os.zip ns) (entryRename o n e) = _
    have hi' : i < os.length := by
      simp only [List.length_cons] at hi; omega
    have hnotmem : e.name ≠ o := by
      intro h
      have hmem : os.getD i "" ∈ os := by
        rw [List.getD_eq_getElem os "" hi']
        exact List.getElem_mem hi'
      rw [hname] at h
      rw [List.nodup_cons] at hnd
      exact hnd.1 (h ▸ hmem)
    rw [entryRename, if_neg hnotmem]
    exact applyRenames_zip os ns e i (List.nodup_cons.mp hnd).2
      (by simp only [List.length_cons] at hlen; omega)
      (fun x hx => fun hmem => hfresh x (by simp [hx]) (by simp [hmem]))
      hi' hname

lemma lookup_zip_getD : ∀ (olds news : List String) (i : Nat),
    olds.Nodup → news.length = olds.length → i < olds.length →
    (olds.zip news).lookup (olds.getD i "") = some (news.getD i "")
  | [], _, i, _, _, hi => absurd hi (by simp)
  | _ :: _, [], _, _, hlen, _ => by simp at hlen
  | o :: os, n :: ns, 0, hnd, hlen, hi => by
    simp [List.zip_cons_cons, List.lookup]
  | o :: os, n :: ns, i + 1, hnd, hlen, hi => by
    simp only [List.getD_cons_succ]
    have hi' : i < os.length := by
      simp only [List.length_cons] at hi; omega
    have hne : (os.getD i "" == o) = false := by
      rw [beq_eq_false_iff_ne]
      intro h
      have hmem : os.getD i "" ∈ os := by
        rw [List.getD_eq_getElem os "" hi']
        exact List.getElem_mem hi'
      rw [List.nodup_cons] at hnd
      exact hnd.1 (h ▸ hmem)
    rw [List.zip_cons_cons, List.lookup, hne]
    simp only []
    exact lookup_zip_getD os ns i (List.nodup_cons.mp hnd).2
      (by simp only [List.length_cons] at hlen; omega) hi'

lemma lookup_zip_not_mem : ∀ (olds news : List String) (key : String),
    key ∉ olds → (olds.zip news).lookup key = none
  | [], _, _, _ => rfl
  | _ :: _, [], _, _ => rfl
  | o :: os, n :: ns, key, h => by
    have h1 : (key == o) = false := by
      rw [beq_eq_false_iff_ne]
      intro hx; exact h (by simp [hx])
    rw [List.zip_cons_cons, List.lookup, h1]
    exact lookup_zip_not_mem os ns key (fun hx => h (by simp [hx]))

/-- C10: invoking rename on an existing directory containing no file with a
case-insensitive `.png` extension is rejected with the validation error
`No .png files found in the selected folder.` and the directory is returned
unchanged, rather than succeeding vacuously with an empty mapping. -/
theorem rename_no_pngs_rejected (tmp : Nat → String) (dir : List Entry)
    (base vb : String)
    (hvb : validateBaseName base = Except.ok vb)
    (hnone : dir.filter isPngFile = []) :
    renamePngs tmp dir base
      = (dir, Except.error (400, "No .png files found in the selected folder.")) := by
  have hsort : sortedPngs dir = [] := by
    rw [sortedPngs, hnone]
    rfl
  simp [renamePngs, hvb, hsort]

/-- Witness for C10: a directory holding a single text file. -/
theorem rename_no_pngs_rejected_witness :
    renamePngs (fun _ => "t") [Entry.mk "a.txt" true 1] "img"
      = ([Entry.mk "a.txt" true 1],
        Except.error (400, "No .png files found in the selected folder.")) :=
  rename_no_pngs_rejected (fun _ => "t") [Entry.mk "a.txt" true 1] "img" "img"
    rfl rfl

/-- C4: if some planned final name `<base>_<k>.png` already names an
existing directory entry that is not one of the candidate files, rename
aborts with the conflict error and returns the directory unchanged — zero
filesystem changes. -/
theorem rename_conflict_aborts (tmp : Nat → String) (dir : List Entry)
    (base vb : String)
    (hvb : validateBaseName base = Except.ok vb)
    (hne : sortedPngs dir ≠ [])
    (hconf : ∃ n ∈ renPlannedNames vb (sortedPngs dir).length,
      (∃ e ∈ dir, e.name = n) ∧ n ∉ (sortedPngs dir).map Entry.name) :
    (renamePngs tmp dir base).1 = dir ∧
    ∃ n, (renamePngs tmp dir base).2
      = Except.error (400, "Cannot rename because target file already exists: " ++ n) := by
  have hfind : ((renPlannedNames vb (sortedPngs dir).length).find?
      (fun n => (dir.any (fun e => e.name = n))
        && !(((sortedPngs dir).map Entry.name).contains n))).isSome = true := by
    rw [List.find?_isSome]
    obtain ⟨n, hn, ⟨e, he, hename⟩, hnot⟩ := hconf
    refine ⟨n, hn, ?_⟩
    rw [Bool.and_eq_true]
    constructor
    · rw [List.any_eq_true]
      exact ⟨e, he, by simp [hename]⟩
    · simp only [Bool.not_eq_true']
      simp [hnot]
  obtain ⟨m, hm⟩ := Option.isSome_iff_exists.mp hfind
  refine ⟨?_, m, ?_⟩
  · simp only [renamePngs, hvb, if_neg hne, hm]
  · simp only [renamePngs, hvb, if_neg hne, hm]

/-- Witness for C4: two candidate pngs, but `img_1.png` already exists as a
non-candidate (a subdirectory), so nothing is renamed. -/
theorem rename_conflict_aborts_witness :
    (renamePngs (fun _ => "t")
        [Entry.mk "a.png" true 1, Entry.mk "img_1.png" false 2] "img").1
      = [Entry.mk "a.png" true 1, Entry.mk "img_1.png" false 2] ∧
    ∃ n, (renamePngs (fun _ => "t")
        [Entry.mk "a.png" true 1, Entry.mk "img_1.png" false 2] "img").2
      = Except.error (400, "Cannot rename because target file already exists: " ++ n) :=
  rename_conflict_aborts (fun _ => "t")
    [Entry.mk "a.png" true 1, Entry.mk "img_1.png" false 2] "img" "img"
    rfl (by decide)
    ⟨"img_1.png", by decide, ⟨Entry.mk "img_1.png" false 2, by decide, rfl⟩, by decide⟩

/-- C3: given at least one candidate file, a validated base name, no
conflict with any non-participating entry, and fresh pairwise-distinct
temporary names (the uuid assumption), rename succeeds and the resulting
directory is exactly the input with each candidate file renamed to
`<base>_<k>.png`, where k is its 1-based position in the case-insensitive
sort of the candidate names; all other entries, every entry's contents, and
the total entry count are unchanged, and the returned mapping pairs each
original candidate name with its planned name.  The last two conjuncts
check that the model's candidate list is a permutation of the candidates in
case-insensitive sorted order. -/
theorem rename_success_bijection (tmp : Nat → String) (dir : List Entry)
    (base vb : String)
    (hnd : (dir.map Entry.name).Nodup)
    (hvb : validateBaseName base = Except.ok vb)
    (hne : sortedPngs dir ≠ [])
    (hnoconf : ∀ n ∈ renPlannedNames vb (sortedPngs dir).length,
      (∃ e ∈ dir, e.name = n) → n ∈ (sortedPngs dir).map Entry.name)
    (htmpinj : ∀ i ∈ List.range (sortedPngs dir).length,
      ∀ j ∈ List.range (sortedPngs dir).length, tmp i = tmp j → i = j)
    (htmpdir : ∀ i ∈ List.range (sortedPngs dir).length,
      ∀ e ∈ dir, tmp i ≠ e.name)
    (htmppl : ∀ i ∈ List.range (sortedPngs dir).length,
      ∀ n ∈ renPlannedNames vb (sortedPngs dir).length, tmp i ≠ n) :
    renamePngs tmp dir base
      = (dir.map (renApply dir vb),
        Except.ok (RenameResult.mk vb (sortedPngs dir).length (renFinalMap dir vb))) ∧
    (dir.map (renApply dir vb)).length = dir.length ∧
    (sortedPngs dir).Perm (dir.filter isPngFile) ∧
    (sortedPngs dir).Pairwise (fun a b => entryKeyLe a b = true) := by
  have hperm : (sortedPngs dir).Perm (dir.filter isPngFile) := sortEntries_perm _
  have hpair : (sortedPngs dir).Pairwise (fun a b => entryKeyLe a b = true) :=
    sortEntries_pairwise _
  have hcurlen : ((sortedPngs dir).map Entry.name).length = (sortedPngs dir).length :=
    List.length_map _ _
  have hpllen : (renPlannedNames vb (sortedPngs dir).length).length
      = (sortedPngs dir).length := by
    rw [renPlannedNames, List.length_map, List.length_range]
  have htllen : (((List.range (sortedPngs dir).length).map tmp)).length
      = (sortedPngs dir).length := by
    rw [List.length_map, List.length_range]
  have hcurnd : ((sortedPngs dir).map Entry.name).Nodup := by
    have hsubl : ((dir.filter isPngFile).map Entry.name).Sublist (dir.map Entry.name) :=
      (List.filter_sublist dir).map Entry.name
    exact ((hperm.map Entry.name).nodup_iff).mpr (List.Nodup.sublist hsubl hnd)
  have hcur_in_dir : ∀ x ∈ (sortedPngs dir).map Entry.name, ∃ e ∈ dir, e.name = x := by
    intro x hx
    obtain ⟨e, he, hex⟩ := List.mem_map.mp hx
    refine ⟨e, ?_, hex⟩
    exact List.mem_of_mem_filter (hperm.mem_iff.mp he)
  have htl_fresh : ∀ n ∈ (List.range (sortedPngs dir).length).map tmp,
      n ∉ (sortedPngs dir).map Entry.name := by
    intro n hn hmem
    obtain ⟨i, hi, rfl⟩ := List.mem_map.mp hn
    obtain ⟨e, he, hex⟩ := hcur_in_dir _ hmem
    exact htmpdir i hi e he hex.symm
  have htlnd : ((List.range (sortedPngs dir).length).map tmp).Nodup :=
    List.Nodup.map_on htmpinj (List.nodup_range _)
  have hpl_fresh : ∀ n ∈ renPlannedNames vb (sortedPngs dir).length,
      n ∉ (List.range (sortedPngs dir).length).map tmp := by
    intro n hn hmem
    obtain ⟨i, hi, hex⟩ := List.mem_map.mp hmem
    exact htmppl i hi n hn hex
  have hfind : (renPlannedNames vb (sortedPngs dir).length).find?
      (fun n => (dir.any (fun e => e.name = n))
        && !(((sortedPngs dir).map Entry.name).contains n)) = none := by
    rw [List.find?_eq_none]
    intro n hn hcontra
    rw [Bool.and_eq_true] at hcontra
    obtain ⟨h1, h2⟩ := hcontra
    rw [List.any_eq_true] at h1
    obtain ⟨e, he, hex⟩ := h1
    have hmem : n ∈ (sortedPngs dir).map Entry.name :=
      hnoconf n hn ⟨e, he, by simpa using hex⟩
    rw [Bool.not_eq_true'] at h2
    simp [hmem] at h2
  have hentry : ∀ e ∈ dir,
      applyRenames ((((sortedPngs dir).map Entry.name).zip
          ((List.range (sortedPngs dir).length).map tmp))
        ++ (((List.range (sortedPngs dir).length).map tmp).zip
          (renPlannedNames vb (sortedPngs dir).length))) e
      = renApply dir vb e := by
    intro e he
    rw [applyRenames_append]
    by_cases hm : e.name ∈ (sortedPngs dir).map Entry.name
    · obtain ⟨i, hi, hgi⟩ := List.getElem_of_mem hm
      have hgd : e.name = ((sortedPngs dir).map Entry.name).getD i "" := by
        rw [List.getD_eq_getElem _ "" hi, hgi]
      have hp1 : applyRenames (((sortedPngs dir).map Entry.name).zip
          ((List.range (sortedPngs dir).length).map tmp)) e
          = { e with name := (((List.range (sortedPngs dir).length).map tmp)).getD i "" } :=
        applyRenames_zip _ _ e i hcurnd (by omega) htl_fresh hi hgd
      rw [hp1]
      have hi' : i < (((List.range (sortedPngs dir).length).map tmp)).length := by omega
      have hp2 : applyRenames ((((List.range (sortedPngs dir).length).map tmp)).zip
          (renPlannedNames vb (sortedPngs dir).length))
          { e with name := (((List.range (sortedPngs dir).length).map tmp)).getD i "" }
          = { e with name := (renPlannedNames vb (sortedPngs dir).length).getD i "" } :=
        applyRenames_zip _ _ _ i htlnd (by omega) hpl_fresh hi' rfl
      rw [hp2]
      rw [renApply, renFinalMap]
      rw [hgd, lookup_zip_getD _ _ i hcurnd (by omega) hi]
    · have hp1 : applyRenames (((sortedPngs dir).map Entry.name).zip
          ((List.range (sortedPngs dir).length).map tmp)) e = e := by
        apply applyRenames_not_mem
        rw [List.map_fst_zip _ _ (by omega)]
        exact hm
      rw [hp1]
      have hnt : e.name ∉ ((List.range (sortedPngs dir).length).map tmp) := by
        intro hmem
        obtain ⟨i, hi, hex⟩ := List.mem_map.mp hmem
        exact htmpdir i hi e he hex
      have hp2 : applyRenames ((((List.range (sortedPngs dir).length).map tmp)).zip
          (renPlannedNames vb (sortedPngs dir).length)) e = e := by
        apply applyRenames_not_mem
        rw [List.map_fst_zip _ _ (by omega)]
        exact hnt
      rw [hp2]
      rw [renApply, renFinalMap, lookup_zip_not_mem _ _ _ hm]
  refine ⟨?_, List.length_map _ _, hperm, hpair⟩
  simp only [renamePngs, hvb, if_neg hne, hfind]
  rw [runRenames_append, renFinalMap]
  rw [List.map_congr_left hentry]

/-- Witness for C3: two candidate files `B.PNG` and `a.png` (sorted
case-insensitively as `a.png`, `B.PNG`) and a non-candidate `notes.txt`;
renaming with base `img` yields `img_1.png`, `img_2.png` with contents
preserved and the text file untouched. -/
theorem rename_success_bijection_witness :
    renamePngs (fun i => "tmp" ++ toString i)
        [Entry.mk "B.PNG" true 1, Entry.mk "a.png" true 2, Entry.mk "notes.txt" true 3]
        "img"
      = ([Entry.mk "img_2.png" true 1, Entry.mk "img_1.png" true 2,
          Entry.mk "notes.txt" true 3],
        Except.ok (RenameResult.mk "img" 2
          [("a.png", "img_1.png"), ("B.PNG", "img_2.png")])) := by
  have h := rename_success_bijection (fun i => "tmp" ++ toString i)
    [Entry.mk "B.PNG" true 1, Entry.mk "a.png" true 2, Entry.mk "notes.txt" true 3]
    "img" "img"
    (by decide) rfl (by decide) (by decide) (by decide) (by decide) (by decide)
  rw [h.1]
  rfl

/-- C5 counterexample: a submission passing all six up-front checks whose
second image is empty is rejected with the validation error
`Image 2 is empty.`, but only after the upload directory was created and
the first image was written — a validation-error path that leaves partial
state behind. -/
theorem submit_partial_state_on_image_validation_ce :
    (createBatch "B" "key" "p"
        [UploadImage.mk "a.png" [7], UploadImage.mk "b.png" []]
        (SubmitConfig.mk "m" "1024x1024" "medium" "png" 1)).2
      = Except.error (400, "Image 2 is empty.") ∧
    (createBatch "B" "key" "p"
        [UploadImage.mk "a.png" [7], UploadImage.mk "b.png" []]
        (SubmitConfig.mk "m" "1024x1024" "medium" "png" 1)).1
      = SubmitEffects.mk ["data/uploads/B"] [("data/uploads/B/001_a.png", [7])] [] 0 ∧
    SubmitEffects.mk ["data/uploads/B"] [("data/uploads/B/001_a.png", [7])] [] 0
      ≠ noEffects :=
  ⟨rfl, rfl, by decide⟩

/-- C5 (amended): every submission failing one of the six up-front checks —
no prompt after sanitization, no image, concurrency outside [1,10], quality
outside its enumerated set, output format outside its enumerated set, or an
unconfigured API key — is rejected before any state is created: no
directory, no file, no batch, no job.  (The per-image checks that run
after the upload directory exists are excluded; see the counterexample.) -/
theorem submit_validation_rejects_before_state
    (batchId apiKey promptsText : String) (images : List UploadImage)
    (cfg : SubmitConfig)
    (hbad : sanitizePrompts promptsText = [] ∨ images = [] ∨
      cfg.concurrency < 1 ∨ cfg.concurrency > 10 ∨
      ¬ (cfg.quality = "auto" ∨ cfg.quality = "low" ∨ cfg.quality = "medium"
        ∨ cfg.quality = "high") ∨
      ¬ (cfg.output_format = "png" ∨ cfg.output_format = "webp"
        ∨ cfg.output_format = "jpeg") ∨
      apiKey = "") :
    (createBatch batchId apiKey promptsText images cfg).1 = noEffects ∧
    ∃ e, (createBatch batchId apiKey promptsText images cfg).2 = Except.error e := by
  rw [createBatch]
  split_ifs with h1 h2 h3 h4 h5 h6 <;>
    first
    | exact ⟨rfl, _, rfl⟩
    | · exfalso
        rcases hbad with h | h | h | h | h | h | h
        · exact h1 h
        · exact h2 h
        · exact h3 (Or.inl h)
        · exact h3 (Or.inr h)
        · exact h h4
        · exact h h5
        · exact h6 h

/-- Witness for C5's amended theorem: an empty prompts text is rejected with
no effects. -/
theorem submit_validation_rejects_before_state_witness :
    (createBatch "B" "key" "" [UploadImage.mk "a.png" [7]]
        (SubmitConfig.mk "m" "1024x1024" "medium" "png" 1)).1 = noEffects ∧
    ∃ e, (createBatch "B" "key" "" [UploadImage.mk "a.png" [7]]
        (SubmitConfig.mk "m" "1024x1024" "medium" "png" 1)).2 = Except.error e :=
  submit_validation_rejects_before_state "B" "key" ""
    [UploadImage.mk "a.png" [7]] (SubmitConfig.mk "m" "1024x1024" "medium" "png" 1)
    (Or.inl rfl)

end MseSora
